import Mathlib

/-
Verification of the CWL eligibility and capacity-filtering engine of the
trinity_backend repository.

The definitions below are a shallow embedding of the JavaScript source:

  * calculateEligibleMembers, filterClansByCapacity, getCWLClansFiltered and
    getClanEligibleMembers from the CWL service module (the variant of
    filterClansByCapacity with the explicit serious/lazy rules and the
    lastVisibleLazyClan state, which is the one the design document
    describes), and
  * getMultipleClans from the Clash-of-Clans API service module.

JavaScript-specific behaviour is modelled explicitly:

  * falsiness of the empty string and of the number 0 in expressions such as
    x || 999 and x || 'Unknown';
  * parseInt semantics (leading whitespace, optional sign, hexadecimal 0x
    prefix, NaN replaced by 0 through the || 0 idiom) as an Option Int;
  * the regular expression th\s*(\d+) scanned globally over the lower-cased
    rule text, with leftmost, non-overlapping, greedy matching;
  * Array.prototype.sort with the comparator (a, b) => aKey - bKey, which by
    the ECMAScript specification is a stable sort, modelled by a stable
    insertion sort on the same integer key;
  * object-key iteration of the league groups in first-insertion order, which
    is what the ECMAScript specification prescribes for the non-numeric
    string keys a league name is.

External I/O (the Google-Sheets roster fetch, the live game-API fetch and the
cache) is passed in as explicit data, so the functions modelled here are the
pure cache-miss computations performed on fetched data.
-/

namespace Trinity

/-! ### JavaScript string and number primitives -/

/-- ASCII lower-casing of a character, the fragment of the JavaScript
toLowerCase that is relevant to the ASCII sheet data handled by the source. -/
def lowerChar (c : Char) : Char :=
  match c with
  | 'A' => 'a' | 'B' => 'b' | 'C' => 'c' | 'D' => 'd' | 'E' => 'e'
  | 'F' => 'f' | 'G' => 'g' | 'H' => 'h' | 'I' => 'i' | 'J' => 'j'
  | 'K' => 'k' | 'L' => 'l' | 'M' => 'm' | 'N' => 'n' | 'O' => 'o'
  | 'P' => 'p' | 'Q' => 'q' | 'R' => 'r' | 'S' => 's' | 'T' => 't'
  | 'U' => 'u' | 'V' => 'v' | 'W' => 'w' | 'X' => 'x' | 'Y' => 'y'
  | 'Z' => 'z'
  | other => other

/-- Lower-casing of a character list, modelling String.prototype.toLowerCase. -/
def jsToLower (s : List Char) : List Char := s.map lowerChar

/-- Whitespace in the sense of the JavaScript regular-expression class \s and
of String.prototype.trim. -/
def isJsSpace (c : Char) : Bool :=
  c = ' ' || c = '\t' || c = '\n' || c = '\r' ||
  c.toNat = 11 || c.toNat = 12 || c.toNat = 160 ||
  c.toNat = 0x1680 || (0x2000 ≤ c.toNat && c.toNat ≤ 0x200a) ||
  c.toNat = 0x2028 || c.toNat = 0x2029 || c.toNat = 0x202f ||
  c.toNat = 0x205f || c.toNat = 0x3000 || c.toNat = 0xfeff

/-- Removal of leading and trailing whitespace, modelling
String.prototype.trim. -/
def jsTrim (l : List Char) : List Char :=
  ((l.dropWhile isJsSpace).reverse.dropWhile isJsSpace).reverse

/-- Tests whether the first list is an initial segment of the second. -/
def strStarts : List Char → List Char → Bool
  | [], _ => true
  | _ :: _, [] => false
  | a :: as, b :: bs => a = b && strStarts as bs

/-- Tests whether the first list occurs as a contiguous segment of the
second, modelling String.prototype.includes. -/
def strHas (needle : List Char) : List Char → Bool
  | [] => needle.isEmpty
  | c :: t => strStarts needle (c :: t) || strHas needle t

/-- Numeric value of a decimal digit character. -/
def digitVal (c : Char) : Nat := c.toNat - 48

/-- Value of a string of decimal digits. -/
def digitsVal (l : List Char) : Nat :=
  l.foldl (fun acc c => 10 * acc + digitVal c) 0

/-- Hexadecimal digit test, as accepted by parseInt after a 0x prefix. -/
def isHexDigit (c : Char) : Bool :=
  c.isDigit || ('a' ≤ c && c ≤ 'f') || ('A' ≤ c && c ≤ 'F')

/-- Numeric value of a hexadecimal digit character. -/
def hexDigitVal (c : Char) : Nat :=
  if c.isDigit then c.toNat - 48
  else if 'a' ≤ c && c ≤ 'f' then c.toNat - 87
  else c.toNat - 55

/-- Value of a string of hexadecimal digits. -/
def hexVal (l : List Char) : Nat :=
  l.foldl (fun acc c => 16 * acc + hexDigitVal c) 0

/-- The JavaScript parseInt applied to a string: skip leading whitespace,
read an optional sign, then either a 0x/0X-prefixed hexadecimal numeral or a
decimal numeral, stopping at the first unusable character; none stands for
the NaN result produced when no digit is found. -/
def jsParseInt (s : List Char) : Option Int :=
  let t := s.dropWhile isJsSpace
  let signBody : Int × List Char :=
    match t with
    | '-' :: r => (-1, r)
    | '+' :: r => (1, r)
    | _ => (1, t)
  match signBody.2 with
  | '0' :: 'x' :: r =>
      let ds := r.takeWhile isHexDigit
      if ds.isEmpty then none else some (signBody.1 * (hexVal ds : Int))
  | '0' :: 'X' :: r =>
      let ds := r.takeWhile isHexDigit
      if ds.isEmpty then none else some (signBody.1 * (hexVal ds : Int))
  | _ =>
      let ds := signBody.2.takeWhile Char.isDigit
      if ds.isEmpty then none else some (signBody.1 * (digitsVal ds : Int))

/-- The JavaScript idiom s || d on strings: the empty string is falsy and is
replaced by the default. -/
def jsStrOr (s d : String) : String := if s = "" then d else s

/-! ### Data model

The record fields carried by the merged clan objects, restricted to the
fields the modelled functions read.  A missing JavaScript field is an
Option none or a defaulted empty string, matching the defaulting the source
applies at its deserialisation boundary. -/

/-- One live clan member, of which the filter logic reads only the town-hall
level (defaulted to 0 by the API service when absent). -/
structure Member where
  townHallLevel : Int := 0
deriving DecidableEq, Repr

/-- One roster row fetched from the sheet: the fields of the objects produced
by fetchCWLClansDetailsFromSheet, with inUse absent when the caller (such as
the eligible-members route) supplies a partial object. -/
structure SheetData where
  inUse : Option Int := none
  tag : String := ""
  name : String := ""
  format : String := ""
  members : String := ""
  townHall : String := ""
  weight : String := ""
  league : String := ""
deriving DecidableEq, Repr

/-- A clan record as returned by the live API fetch and later merged with the
sheet row: only the fields read by the modelled functions are carried. -/
structure Clan where
  tag : String := ""
  name : String := ""
  warLeagueName : Option String := none
  memberList : List Member := []
  sheetData : Option SheetData := none
  eligibleMembers : Nat := 0
deriving DecidableEq, Repr

/-! ### The eligibility calculator -/

/-- Attempts to match the regular expression th\s*(\d+) at the head of the
list: the literal th, then a greedy run of whitespace, then a greedy
non-empty run of digits.  Returns the parsed number and the remainder of the
list after the match. -/
def thTryMatch (l : List Char) : Option (Nat × List Char) :=
  match l with
  | 't' :: 'h' :: r =>
      let afterSpace := r.dropWhile isJsSpace
      let ds := afterSpace.takeWhile Char.isDigit
      if ds.isEmpty then none
      else some (digitsVal ds, afterSpace.dropWhile Char.isDigit)
  | _ => none

/-- Fuelled global scan for th\s*(\d+): at each position the leftmost match
is taken and the scan resumes after it, otherwise the scan advances one
character, exactly as the global regular-expression match of the source.
Each step consumes at least one character, so fuel equal to the length of the
list is always sufficient. -/
def thScanGo (fuel : Nat) : List Char → List Nat :=
  match fuel with
  | 0 => fun _ => []
  | Nat.succ fuel' => fun l =>
    match l with
    | [] => []
    | c :: cs =>
      match thTryMatch (c :: cs) with
      | some (n, rest) => n :: thScanGo fuel' rest
      | none => thScanGo fuel' cs

/-- All numbers of the th\s*(\d+) occurrences of the list, in order. -/
def thScan (l : List Char) : List Nat := thScanGo l.length l

/-- The eligibility calculator calculateEligibleMembers of the CWL service:
returns 0 when the sheet row, its townHall text, or the member list is
missing; otherwise parses the town-hall numbers out of the lower-cased rule
text and counts the members the rule admits.  The three counting modes are
the source ones: a rule containing below counts levels up to the largest
parsed number, a single-number rule counts exact matches, and a
multi-number rule counts the inclusive range between the smallest and the
largest parsed number. -/
def calculateEligibleMembers (sheetData : Option SheetData)
    (memberList : Option (List Member)) : Nat :=
  match sheetData, memberList with
  | some sd, some members =>
    if sd.townHall = "" then 0 else
    let thRequirement := jsToLower sd.townHall.toList
    let thNumbers := thScan thRequirement
    match thNumbers with
    | [] => 0
    | n :: rest =>
      let isAndBelow := strHas "and below".toList thRequirement
                     || strHas "below".toList thRequirement
      let minTH := rest.foldl Nat.min n
      let maxTH := rest.foldl Nat.max n
      if isAndBelow then
        (members.filter (fun m => m.townHallLevel ≤ (maxTH : Int))).length
      else if (n :: rest).length = 1 then
        (members.filter (fun m => m.townHallLevel = (n : Int))).length
      else
        (members.filter (fun m =>
          (minTH : Int) ≤ m.townHallLevel ∧ m.townHallLevel ≤ (maxTH : Int))).length
  | _, _ => 0

example :
    calculateEligibleMembers
      (some { townHall := "TH17, TH16 and below" })
      (some [{ townHallLevel := 17 }, { townHallLevel := 16 },
             { townHallLevel := 15 }, { townHallLevel := 14 }]) = 4 := by
  decide

example :
    calculateEligibleMembers (some { townHall := "Th15" })
      (some [{ townHallLevel := 15 }, { townHallLevel := 14 }]) = 1 := by
  decide

example :
    calculateEligibleMembers (some { townHall := "TH17, TH15" })
      (some [{ townHallLevel := 17 }, { townHallLevel := 16 },
             { townHallLevel := 14 }]) = 2 := by
  decide

/-! ### Stable sorting by an integer key

Array.prototype.sort with the comparator (a, b) => aKey - bKey is required by
the ECMAScript specification to be a stable ascending sort; a stable
insertion sort on the same key produces the identical list. -/

/-- Inserts an element into a list so that every earlier element with a
strictly smaller key stays before it and every element with a greater or
equal key moves after it; on a sorted list this is the stable insertion
position. -/
def insKey {α : Type} (key : α → Int) (x : α) : List α → List α
  | [] => [x]
  | y :: ys => if key y < key x then y :: insKey key x ys else x :: y :: ys

/-- Stable ascending insertion sort by an integer key. -/
def sortKey {α : Type} (key : α → Int) : List α → List α
  | [] => []
  | x :: xs => insKey key x (sortKey key xs)

/-! ### The capacity filter -/

/-- The sort key of the filter: clan.sheetData?.inUse || 999.  A missing
sheet row, a missing inUse value, and the falsy inUse value 0 all fall back
to 999. -/
def inUseKey (c : Clan) : Int :=
  match c.sheetData with
  | none => 999
  | some sd =>
    match sd.inUse with
    | none => 999
    | some n => if n = 0 then 999 else n

/-- The normalised format of a clan:
(clan.sheetData?.format || 'Unknown').toLowerCase().trim(). -/
def formatOf (c : Clan) : String :=
  String.mk (jsTrim (jsToLower
    (jsStrOr (match c.sheetData with
              | none => ""
              | some sd => sd.format) "Unknown").toList))

/-- The league group key of a clan:
clan.sheetData?.league || clan.warLeague?.name || 'Unknown'. -/
def leagueOf (c : Clan) : String :=
  jsStrOr (match c.sheetData with
           | none => ""
           | some sd => sd.league)
    (jsStrOr (match c.warLeagueName with
              | none => ""
              | some n => n) "Unknown")

/-- The member quota read off a sheet row: parseInt(sheetData?.members) || 0,
so a missing row, an unparseable field, and the value 0 all give 0. -/
def requiredOfSheet (sheetData : Option SheetData) : Int :=
  match sheetData with
  | none => 0
  | some sd => (jsParseInt sd.members.toList).getD 0

/-- The member quota of a clan. -/
def requiredOf (c : Clan) : Int := requiredOfSheet c.sheetData

/-- The fullness test the filter applies to the last visible lazy clan:
its freshly computed eligible-member count is at least its quota. -/
def clanIsFull (c : Clan) : Bool :=
  decide ((calculateEligibleMembers c.sheetData (some c.memberList) : Int)
            ≥ requiredOf c)

/-- The visibility walk over one league group, already sorted by inUseKey,
carrying the lastVisibleLazyClan state: a serious clan is always shown, the
first lazy clan is always shown and becomes the state, a later lazy clan is
shown exactly when the state clan is full (and then replaces it), and any
other format is shown without touching the state. -/
def walkLeague : Option Clan → List Clan → List Clan
  | _, [] => []
  | lastVisibleLazyClan, clan :: rest =>
    if formatOf clan = "serious" then
      clan :: walkLeague lastVisibleLazyClan rest
    else if formatOf clan = "lazy" then
      match lastVisibleLazyClan with
      | none => clan :: walkLeague (some clan) rest
      | some prev =>
        if clanIsFull prev then clan :: walkLeague (some clan) rest
        else walkLeague (some prev) rest
    else
      clan :: walkLeague lastVisibleLazyClan rest

/-- The lastVisibleLazyClan state after the walk has consumed a list. -/
def stateAfter : Option Clan → List Clan → Option Clan
  | s, [] => s
  | s, clan :: rest =>
    if formatOf clan = "serious" then
      stateAfter s rest
    else if formatOf clan = "lazy" then
      match s with
      | none => stateAfter (some clan) rest
      | some prev =>
        if clanIsFull prev then stateAfter (some clan) rest
        else stateAfter (some prev) rest
    else
      stateAfter s rest

/-- The keys of the league-group object in first-insertion order, as
Object.keys enumerates the non-numeric string keys built by the grouping
loop. -/
def dedupFirst (seen : List String) : List String → List String
  | [] => []
  | k :: t =>
    if k ∈ seen then dedupFirst seen t
    else k :: dedupFirst (k :: seen) t

/-- Concatenation of the per-league visible lists, one league key at a time:
each group is the input clans of that league in input order, sorted by
inUseKey, then walked with an empty lastVisibleLazyClan state. -/
def concatGroups (clans : List Clan) : List String → List Clan
  | [] => []
  | k :: ks =>
      walkLeague none (sortKey inUseKey (clans.filter (fun c => leagueOf c = k)))
        ++ concatGroups clans ks

/-- The visible clans of all league groups, before the final global sort. -/
def visibleClansOf (clans : List Clan) : List Clan :=
  concatGroups clans (dedupFirst [] (clans.map leagueOf))

/-- The capacity filter filterClansByCapacity: group the clans by league,
sort each group by inUseKey, run the serious/lazy visibility walk, and sort
the concatenated visible clans globally by inUseKey again. -/
def filterClansByCapacity (clans : List Clan) : List Clan :=
  sortKey inUseKey (visibleClansOf clans)

/-! ### The orchestrator and the API service -/

/-- Tag validity filter of getMultipleClans:
tag && tag !== '#YOUR_CLAN_TAG', the empty string being falsy. -/
def isValidTag (tag : String) : Bool :=
  tag ≠ "" && tag ≠ "#YOUR_CLAN_TAG"

/-- Fuelled batching loop of getMultipleClans: slices of five tags are
fetched per round (the request pool size), each failed fetch yielding none
in place of a record.  Each round consumes at least one tag, so fuel equal
to the number of tags is always sufficient. -/
def batchGo (fetchOne : String → Option Clan) : Nat → List String → List (Option Clan)
  | 0, _ => []
  | _, [] => []
  | Nat.succ fuel, t :: ts =>
      ((t :: ts.take 4).map fetchOne) ++ batchGo fetchOne fuel (ts.drop 4)

/-- The batch fetcher getMultipleClans, with the per-tag fetch passed in as
a function returning none on a failed fetch (the source catches the failure,
logs it and stores null): invalid tags are dropped first, the remaining tags
are fetched in batches, and the null results are filtered out. -/
def getMultipleClans (fetchOne : String → Option Clan)
    (clanTags : List String) : List Clan :=
  let validTags := clanTags.filter isValidTag
  if validTags.length = 0 then []
  else (batchGo fetchOne validTags.length validTags).filterMap id

/-- The merge step of getCWLClansFiltered: each fetched clan is joined to the
first sheet row of the same tag (none when there is no such row) and its
eligible-member count is computed. -/
def mergeClans (detailsFromSheet : List SheetData)
    (fetchedClans : List Clan) : List Clan :=
  fetchedClans.map (fun clan =>
    let sheetInfo := detailsFromSheet.find? (fun detail => detail.tag = clan.tag)
    { clan with
        sheetData := sheetInfo
        eligibleMembers := calculateEligibleMembers sheetInfo (some clan.memberList) })

/-- The cache-miss computation of getCWLClansFiltered, with the two fetched
data sets passed in: an empty sheet fetch and an empty live fetch each raise
their own distinct error, otherwise the merged list is filtered and
returned. -/
def getCWLClansFiltered (detailsFromSheet : List SheetData)
    (fetchedClans : List Clan) : Except String (List Clan) :=
  if detailsFromSheet.length = 0 then
    Except.error "No CWL clans found in Google Sheets"
  else if fetchedClans.length = 0 then
    Except.error "No clan data could be fetched from CoC API"
  else
    Except.ok (filterClansByCapacity (mergeClans detailsFromSheet fetchedClans))

/-- The response record of the eligible-members endpoint. -/
structure EligibleInfo where
  clanTag : String
  clanName : String
  eligibleMembers : Nat
  requiredMembers : Int
  isFull : Bool
  remainingSlots : Int
deriving DecidableEq, Repr

/-- The computation of getClanEligibleMembers once the live fetch of the clan
has succeeded: the eligible count against the posted sheet data, the parsed
quota, the fullness flag, and the clamped number of remaining slots. -/
def getClanEligibleMembers (clan : Clan) (sheetData : Option SheetData) :
    EligibleInfo :=
  let eligibleCount := calculateEligibleMembers sheetData (some clan.memberList)
  let required := requiredOfSheet sheetData
  { clanTag := clan.tag
    clanName := clan.name
    eligibleMembers := eligibleCount
    requiredMembers := required
    isFull := decide ((eligibleCount : Int) ≥ required)
    remainingSlots := max 0 (required - (eligibleCount : Int)) }

/-! ### Properties of the stable sort -/

theorem insKey_perm {α : Type} (key : α → Int) (x : α) (l : List α) :
    List.Perm (insKey key x l) (x :: l) := by
  induction l with
  | nil => simp [insKey]
  | cons y ys ih =>
    by_cases h : key y < key x
    · simp only [insKey, if_pos h]
      exact List.Perm.trans (List.Perm.cons y ih) (List.Perm.swap x y ys)
    · simp [insKey, if_neg h]

theorem sortKey_perm {α : Type} (key : α → Int) (l : List α) :
    List.Perm (sortKey key l) l := by
  induction l with
  | nil => simp [sortKey]
  | cons x xs ih =>
    exact List.Perm.trans (insKey_perm key x (sortKey key xs)) (List.Perm.cons x ih)

theorem mem_sortKey {α : Type} (key : α → Int) (a : α) (l : List α) :
    a ∈ sortKey key l ↔ a ∈ l :=
  (sortKey_perm key l).mem_iff

theorem sortKey_ne_nil {α : Type} (key : α → Int) (l : List α) (h : l ≠ []) :
    sortKey key l ≠ [] := by
  intro hnil
  apply h
  have hp := sortKey_perm key l
  rw [hnil] at hp
  exact hp.symm.eq_nil

theorem pairwise_insKey {α : Type} (key : α → Int) (x : α) (l : List α)
    (h : l.Pairwise (fun a b => key a ≤ key b)) :
    (insKey key x l).Pairwise (fun a b => key a ≤ key b) := by
  induction l with
  | nil => simp [insKey]
  | cons y ys ih =>
    rcases List.pairwise_cons.mp h with ⟨hy, hys⟩
    by_cases hk : key y < key x
    · simp only [insKey, if_pos hk]
      refine List.pairwise_cons.mpr ⟨?_, ih hys⟩
      intro z hz
      rcases List.mem_cons.mp ((insKey_perm key x ys).mem_iff.mp hz) with rfl | hzys
      · exact le_of_lt hk
      · exact hy z hzys
    · simp only [insKey, if_neg hk]
      refine List.pairwise_cons.mpr ⟨?_, h⟩
      intro z hz
      rcases List.mem_cons.mp hz with rfl | hzys
      · exact le_of_not_lt hk
      · exact le_trans (le_of_not_lt hk) (hy z hzys)

theorem sortKey_pairwise {α : Type} (key : α → Int) (l : List α) :
    (sortKey key l).Pairwise (fun a b => key a ≤ key b) := by
  induction l with
  | nil => simp [sortKey]
  | cons x xs ih => exact pairwise_insKey key x (sortKey key xs) ih

theorem filter_insKey {α : Type} (key : α → Int) (k : Int) (x : α) (l : List α) :
    (insKey key x l).filter (fun a => key a = k)
      = if key x = k then x :: l.filter (fun a => key a = k)
        else l.filter (fun a => key a = k) := by
  induction l with
  | nil =>
    by_cases hx : key x = k <;> simp [insKey, List.filter, hx]
  | cons y ys ih =>
    by_cases hk : key y < key x
    · by_cases hx : key x = k
      · have hy : ¬ key y = k := by
          subst hx
          exact ne_of_lt hk
        simp only [insKey, if_pos hk, List.filter_cons, ih, if_pos hx]
        simp [hy]
      · simp only [insKey, if_pos hk, List.filter_cons, ih, if_neg hx]
    · simp only [insKey, if_neg hk, List.filter_cons]
      by_cases hx : key x = k <;> simp [hx]

theorem sortKey_filter {α : Type} (key : α → Int) (k : Int) (l : List α) :
    (sortKey key l).filter (fun a => key a = k) = l.filter (fun a => key a = k) := by
  induction l with
  | nil => simp [sortKey]
  | cons x xs ih =>
    by_cases hx : key x = k
    · simp [sortKey, filter_insKey, hx, ih, List.filter_cons]
    · simp [sortKey, filter_insKey, hx, ih, List.filter_cons]

/-! ### Properties of the visibility walk -/

theorem walkLeague_serious (s : Option Clan) (c : Clan) (l : List Clan)
    (h : formatOf c = "serious") :
    walkLeague s (c :: l) = c :: walkLeague s l := by
  simp [walkLeague, h]

theorem stateAfter_serious (s : Option Clan) (c : Clan) (l : List Clan)
    (h : formatOf c = "serious") :
    stateAfter s (c :: l) = stateAfter s l := by
  simp [stateAfter, h]

theorem walkLeague_cons_none (c : Clan) (rest : List Clan) :
    ∃ t, walkLeague none (c :: rest) = c :: t := by
  by_cases hs : formatOf c = "serious"
  · exact ⟨walkLeague none rest, by simp [walkLeague, hs]⟩
  · by_cases hl : formatOf c = "lazy"
    · exact ⟨walkLeague (some c) rest, by simp [walkLeague, hs, hl]⟩
    · exact ⟨walkLeague none rest, by simp [walkLeague, hs, hl]⟩

theorem mem_walkLeague_serious (c : Clan) (hc : formatOf c = "serious") :
    ∀ (s : Option Clan) (l : List Clan), c ∈ l → c ∈ walkLeague s l := by
  intro s l
  induction l generalizing s with
  | nil => intro h; exact absurd h (List.not_mem_nil c)
  | cons a t ih =>
    intro hmem
    rcases List.mem_cons.mp hmem with rfl | ht
    · simp [walkLeague, hc]
    · by_cases hs : formatOf a = "serious"
      · simp only [walkLeague, if_pos hs]
        exact List.mem_cons_of_mem a (ih s ht)
      · by_cases hl : formatOf a = "lazy"
        · simp only [walkLeague, if_neg hs, if_pos hl]
          cases s with
          | none => exact List.mem_cons_of_mem a (ih (some a) ht)
          | some prev =>
            by_cases hf : clanIsFull prev = true
            · simp only [if_pos hf]
              exact List.mem_cons_of_mem a (ih (some a) ht)
            · simp only [if_neg hf]
              exact ih (some prev) ht
        · simp only [walkLeague, if_neg hs, if_neg hl]
          exact List.mem_cons_of_mem a (ih s ht)

theorem walkLeague_append (pre : List Clan) :
    ∀ (s : Option Clan) (rest : List Clan),
      walkLeague s (pre ++ rest)
        = walkLeague s pre ++ walkLeague (stateAfter s pre) rest := by
  induction pre with
  | nil => intro s rest; simp [walkLeague, stateAfter]
  | cons a t ih =>
    intro s rest
    simp only [List.cons_append]
    by_cases hs : formatOf a = "serious"
    · simp only [walkLeague, stateAfter, if_pos hs, ih, List.cons_append]
    · by_cases hl : formatOf a = "lazy"
      · cases s with
        | none =>
          simp only [walkLeague, stateAfter, if_neg hs, if_pos hl, ih,
            List.cons_append]
        | some prev =>
          by_cases hf : clanIsFull prev = true
          · simp only [walkLeague, stateAfter, if_neg hs, if_pos hl, if_pos hf,
              ih, List.cons_append]
          · simp only [walkLeague, stateAfter, if_neg hs, if_pos hl, if_neg hf, ih]
      · simp only [walkLeague, stateAfter, if_neg hs, if_neg hl, ih,
          List.cons_append]

theorem stateAfter_append (pre : List Clan) :
    ∀ (s : Option Clan) (rest : List Clan),
      stateAfter s (pre ++ rest) = stateAfter (stateAfter s pre) rest := by
  induction pre with
  | nil => intro s rest; simp [stateAfter]
  | cons a t ih =>
    intro s rest
    simp only [List.cons_append]
    by_cases hs : formatOf a = "serious"
    · simp only [stateAfter, if_pos hs, ih]
    · by_cases hl : formatOf a = "lazy"
      · cases s with
        | none => simp only [stateAfter, if_neg hs, if_pos hl, ih]
        | some prev =>
          by_cases hf : clanIsFull prev = true
          · simp only [stateAfter, if_neg hs, if_pos hl, if_pos hf, ih]
          · simp only [stateAfter, if_neg hs, if_pos hl, if_neg hf, ih]
      · simp only [stateAfter, if_neg hs, if_neg hl, ih]

/-! ### Properties of the grouping -/

theorem mem_dedupFirst (x : String) :
    ∀ (seen l : List String), x ∈ l → x ∉ seen → x ∈ dedupFirst seen l := by
  intro seen l
  induction l generalizing seen with
  | nil => intro h _; exact absurd h (List.not_mem_nil x)
  | cons k t ih =>
    intro hmem hseen
    by_cases hk : k ∈ seen
    · simp only [dedupFirst, if_pos hk]
      rcases List.mem_cons.mp hmem with rfl | ht
      · exact absurd hk hseen
      · exact ih seen ht hseen
    · simp only [dedupFirst, if_neg hk]
      rcases List.mem_cons.mp hmem with rfl | ht
      · exact List.mem_cons_self x _
      · by_cases hxk : x = k
        · subst hxk; exact List.mem_cons_self x _
        · refine List.mem_cons_of_mem k (ih (k :: seen) ht ?_)
          simp [List.mem_cons, hxk, hseen]

theorem mem_concatGroups (clans : List Clan) (x : Clan) :
    ∀ (keys : List String) (k : String), k ∈ keys →
      x ∈ walkLeague none (sortKey inUseKey (clans.filter (fun c => leagueOf c = k))) →
      x ∈ concatGroups clans keys := by
  intro keys
  induction keys with
  | nil => intro k h _; exact absurd h (List.not_mem_nil k)
  | cons k0 ks ih =>
    intro k hk hx
    rcases List.mem_cons.mp hk with rfl | hks
    · exact List.mem_append_left _ hx
    · exact List.mem_append_right _ (ih k hks hx)

/-! ### Properties of the batch fetch -/

theorem batchGo_eq_map (f : String → Option Clan) :
    ∀ (fuel : Nat) (ts : List String), ts.length ≤ fuel →
      batchGo f fuel ts = ts.map f := by
  intro fuel
  induction fuel with
  | zero =>
    intro ts h
    have : ts = [] := List.eq_nil_of_length_eq_zero (Nat.le_zero.mp h)
    subst this
    simp [batchGo]
  | succ fuel ih =>
    intro ts h
    cases ts with
    | nil => simp [batchGo]
    | cons t ts' =>
      simp only [List.length_cons, Nat.succ_le_succ_iff] at h
      have hlen : (ts'.drop 4).length ≤ fuel := by
        simp only [List.length_drop]
        omega
      calc batchGo f (fuel + 1) (t :: ts')
          = (t :: ts'.take 4).map f ++ batchGo f fuel (ts'.drop 4) := rfl
        _ = (t :: ts'.take 4).map f ++ (ts'.drop 4).map f := by rw [ih _ hlen]
        _ = (t :: (ts'.take 4 ++ ts'.drop 4)).map f := by
              simp [List.map_cons, List.map_append, List.cons_append]
        _ = (t :: ts').map f := by rw [List.take_append_drop]

/-! ### Properties of the substring tests -/

theorem strStarts_strHas (q l : List Char) (h : strStarts q l = true) :
    strHas q l = true := by
  cases l with
  | nil =>
    cases q with
    | nil => simp [strHas, List.isEmpty]
    | cons a as => simp [strStarts] at h
  | cons c t => simp [strHas, h]

theorem strStarts_append_strHas (p q : List Char) :
    ∀ (l : List Char), strStarts (p ++ q) l = true → strHas q l = true := by
  induction p with
  | nil =>
    intro l h
    exact strStarts_strHas q l (by simpa using h)
  | cons a p ih =>
    intro l h
    cases l with
    | nil => simp [strStarts] at h
    | cons c t =>
      simp only [List.cons_append, strStarts, Bool.and_eq_true] at h
      have ht : strHas q t = true := ih t h.2
      simp [strHas, ht]

theorem strHas_below_of_andBelow (s : List Char)
    (h : strHas "and below".toList s = true) :
    strHas "below".toList s = true := by
  induction s with
  | nil => simp [strHas, List.isEmpty] at h
  | cons c t ih =>
    have hsplit : strStarts ("and below".toList) (c :: t) = true
        ∨ strHas ("and below".toList) t = true := by
      simpa [strHas, Bool.or_eq_true] using h
    rcases hsplit with h1 | h2
    · have hdecomp : ("and below".toList : List Char)
          = "and ".toList ++ "below".toList := by decide
      rw [hdecomp] at h1
      exact strStarts_append_strHas "and ".toList "below".toList (c :: t) h1
    · have ht := ih h2
      have hOr : strStarts "below".toList (c :: t) = true
          ∨ strHas "below".toList t = true := Or.inr ht
      simpa [strHas, Bool.or_eq_true] using hOr

/-! ### Reference definitions transcribed from the design document

These definitions follow the wording of the specification rather than the
source, and are compared with the source-derived definitions in the
refinement claims. -/

/-- Reference eligibility rule, following the specification wording: with
the town-hall numbers parsed out of the rule text, zero numbers give 0; a
rule containing below counts levels up to the largest parsed number; exactly
one parsed number counts exact matches; several numbers without below count
the inclusive range from the smallest to the largest parsed number. -/
def eligibleRef (rule : String) (members : List Member) : Nat :=
  let parsed := thScan (jsToLower rule.toList)
  match parsed with
  | [] => 0
  | n :: rest =>
    if strHas "below".toList (jsToLower rule.toList) then
      (members.filter (fun m => m.townHallLevel ≤ ((rest.foldl Nat.max n : Nat) : Int))).length
    else if rest.isEmpty then
      (members.filter (fun m => m.townHallLevel = (n : Int))).length
    else
      (members.filter (fun m =>
        ((rest.foldl Nat.min n : Nat) : Int) ≤ m.townHallLevel
          ∧ m.townHallLevel ≤ ((rest.foldl Nat.max n : Nat) : Int))).length

/-- Reference league key, following the specification wording: the
roster-provided league name when present, else the live-fetched league name
when present, else Unknown. -/
def leagueRef (c : Clan) : String :=
  match c.sheetData with
  | some sd =>
    if sd.league ≠ "" then sd.league
    else
      match c.warLeagueName with
      | some n => if n ≠ "" then n else "Unknown"
      | none => "Unknown"
  | none =>
    match c.warLeagueName with
    | some n => if n ≠ "" then n else "Unknown"
    | none => "Unknown"

/-- Reference occupancy sort key, following the claim wording: the
occupancyRank of the clan when one is recorded, and the fallback 999 only
when none is recorded. -/
def claimOccKey (c : Clan) : Int :=
  match c.sheetData with
  | none => 999
  | some sd =>
    match sd.inUse with
    | none => 999
    | some n => n

/-! ### The claims -/

/-- C4: for every rule string and every member list, calculateEligibleMembers
equals the piecewise reference definition (zero parsed numbers give 0, a rule
containing below counts levels up to the largest parsed number, one parsed
number counts exact matches, several numbers count the inclusive range), and
the rule TH17, TH16 and below over members at levels 17, 16, 15, 14 yields
4. -/
theorem claim_C4_eligibility_piecewise :
    (∀ (sd : SheetData) (members : List Member),
      calculateEligibleMembers (some sd) (some members)
        = eligibleRef sd.townHall members)
    ∧ calculateEligibleMembers
        (some { townHall := "TH17, TH16 and below" })
        (some [{ townHallLevel := 17 }, { townHallLevel := 16 },
               { townHallLevel := 15 }, { townHallLevel := 14 }]) = 4 := by
  constructor
  · intro sd members
    by_cases h0 : sd.townHall = ""
    · simp [calculateEligibleMembers, eligibleRef, h0, jsToLower, thScan, thScanGo]
    · simp only [calculateEligibleMembers, eligibleRef, if_neg h0]
      cases hts : thScan (jsToLower sd.townHall.toList) with
      | nil => simp
      | cons n rest =>
        have hor : (strHas "and below".toList (jsToLower sd.townHall.toList)
              || strHas "below".toList (jsToLower sd.townHall.toList))
            = strHas "below".toList (jsToLower sd.townHall.toList) := by
          cases hb : strHas "and below".toList (jsToLower sd.townHall.toList)
          · simp
          · have hbT := strHas_below_of_andBelow _ hb
            simp only [hb, Bool.true_or]
            exact hbT.symm
        simp only [hor]
        by_cases hbelow : strHas "below".toList (jsToLower sd.townHall.toList) = true
        · simp [hbelow]
        · have hbelow' : strHas "below".toList (jsToLower sd.townHall.toList) = false :=
            Bool.eq_false_iff.mpr hbelow
          by_cases hr : rest = ([] : List Nat)
          · simp [hbelow', hr]
          · have hlen : ¬ (n :: rest).length = 1 := by
              simpa [List.length_cons] using hr
            simp [hbelow', hr, hlen, List.isEmpty_iff]
  · decide

/-- C1: within a league group, a lazy clan that already has a gating clan
(the last visible lazy clan accumulated over the prefix) is included by the
visibility walk exactly when that gating clan is full at filter time, and
when it is excluded the gating clan is unchanged for the remainder of the
group. -/
theorem claim_C1_lazy_chain_gating :
    ∀ (pre post : List Clan) (c g : Clan),
      stateAfter none pre = some g → formatOf c = "lazy" →
      walkLeague none (pre ++ c :: post)
          = walkLeague none pre
            ++ (if clanIsFull g = true then c :: walkLeague (some c) post
                else walkLeague (some g) post)
      ∧ (clanIsFull g = false →
          stateAfter none (pre ++ c :: post) = stateAfter (some g) post) := by
  intro pre post c g hg hc
  have hser : ¬ formatOf c = "serious" := by
    rw [hc]; decide
  constructor
  · rw [walkLeague_append pre none (c :: post), hg]
    by_cases hf : clanIsFull g = true
    · simp [walkLeague, hser, hc, hf]
    · simp [walkLeague, hser, hc, hf]
  · intro hfull
    rw [stateAfter_append pre none (c :: post), hg]
    simp [stateAfter, hser, hc, hfull]

/-- C1 witness: a league of two lazy clans where the first needs 5 members
but has none, so the walk excludes the second and keeps the first as the
gating clan. -/
theorem claim_C1_witness :
    walkLeague none
        ([{ tag := "#A",
            sheetData := some { inUse := some 1, format := "Lazy",
                                members := "5", townHall := "TH17" } }]
          ++ [{ tag := "#B",
                sheetData := some { inUse := some 2, format := "lazy" } }])
      = walkLeague none
          [{ tag := "#A",
             sheetData := some { inUse := some 1, format := "Lazy",
                                 members := "5", townHall := "TH17" } }]
        ++ (if clanIsFull { tag := "#A",
                            sheetData := some { inUse := some 1, format := "Lazy",
                                                members := "5", townHall := "TH17" } } = true
            then { tag := "#B",
                   sheetData := some { inUse := some 2, format := "lazy" } }
                   :: walkLeague
                        (some { tag := "#B",
                                sheetData := some { inUse := some 2, format := "lazy" } }) []
            else walkLeague
                   (some { tag := "#A",
                           sheetData := some { inUse := some 1, format := "Lazy",
                                               members := "5", townHall := "TH17" } }) [])
    ∧ (clanIsFull { tag := "#A",
                    sheetData := some { inUse := some 1, format := "Lazy",
                                        members := "5", townHall := "TH17" } } = false →
        stateAfter none
            ([{ tag := "#A",
                sheetData := some { inUse := some 1, format := "Lazy",
                                    members := "5", townHall := "TH17" } }]
              ++ [{ tag := "#B",
                    sheetData := some { inUse := some 2, format := "lazy" } }])
          = stateAfter
              (some { tag := "#A",
                      sheetData := some { inUse := some 1, format := "Lazy",
                                          members := "5", townHall := "TH17" } }) []) :=
  claim_C1_lazy_chain_gating
    [{ tag := "#A",
       sheetData := some { inUse := some 1, format := "Lazy",
                           members := "5", townHall := "TH17" } }]
    []
    { tag := "#B", sheetData := some { inUse := some 2, format := "lazy" } }
    { tag := "#A",
      sheetData := some { inUse := some 1, format := "Lazy",
                          members := "5", townHall := "TH17" } }
    (by decide) (by decide)

/-- C2: every clan whose normalised format is serious is in the output of
filterClansByCapacity, whatever its occupancy rank, eligibility and quota
are, and a serious clan neither changes the visibility walk around it nor
the lazy gating state. -/
theorem claim_C2_serious_always_visible :
    ∀ (clans : List Clan) (c : Clan), c ∈ clans → formatOf c = "serious" →
      c ∈ filterClansByCapacity clans
      ∧ (∀ (s : Option Clan) (rest : List Clan),
          walkLeague s (c :: rest) = c :: walkLeague s rest
          ∧ stateAfter s (c :: rest) = stateAfter s rest) := by
  intro clans c hc hfmt
  constructor
  · have hgrp : c ∈ clans.filter (fun x => leagueOf x = leagueOf c) :=
      List.mem_filter.mpr ⟨hc, by simp⟩
    have hsort : c ∈ sortKey inUseKey (clans.filter (fun x => leagueOf x = leagueOf c)) :=
      (mem_sortKey _ _ _).mpr hgrp
    have hwalk : c ∈ walkLeague none
        (sortKey inUseKey (clans.filter (fun x => leagueOf x = leagueOf c))) :=
      mem_walkLeague_serious c hfmt none _ hsort
    have hkey : leagueOf c ∈ dedupFirst [] (clans.map leagueOf) :=
      mem_dedupFirst (leagueOf c) [] (clans.map leagueOf)
        (List.mem_map_of_mem leagueOf hc) (List.not_mem_nil _)
    have hvis : c ∈ visibleClansOf clans :=
      mem_concatGroups clans c _ (leagueOf c) hkey hwalk
    exact (mem_sortKey inUseKey c (visibleClansOf clans)).mpr hvis
  · intro s rest
    exact ⟨walkLeague_serious s c rest hfmt, stateAfter_serious s c rest hfmt⟩

/-- C2 witness: a serious clan with no members and a positive quota is still
in the filtered output. -/
theorem claim_C2_witness :
    { tag := "#S",
      sheetData := some { inUse := some 7, format := " Serious ",
                          members := "30", townHall := "TH17" } }
      ∈ filterClansByCapacity
          [{ tag := "#S",
             sheetData := some { inUse := some 7, format := " Serious ",
                                 members := "30", townHall := "TH17" } }] :=
  (claim_C2_serious_always_visible
    [{ tag := "#S",
       sheetData := some { inUse := some 7, format := " Serious ",
                           members := "30", townHall := "TH17" } }]
    { tag := "#S",
      sheetData := some { inUse := some 7, format := " Serious ",
                          members := "30", townHall := "TH17" } }
    (by simp) (by decide)).1

/-- C3: the capacity filter partitions the clans by the league key that
prefers the sheet-provided league name, falls back to the live-fetched war
league name, and then to Unknown: the source key agrees with the reference
key everywhere, each clan lies in exactly the group of its own key, and its
key is among the group keys the filter processes. -/
theorem claim_C3_league_partition :
    (∀ c : Clan, leagueOf c = leagueRef c)
    ∧ (∀ (clans : List Clan) (c : Clan), c ∈ clans →
        leagueOf c ∈ dedupFirst [] (clans.map leagueOf)
        ∧ c ∈ clans.filter (fun x => leagueOf x = leagueOf c)
        ∧ (∀ k : String, c ∈ clans.filter (fun x => leagueOf x = k) →
            k = leagueOf c)) := by
  constructor
  · intro c
    cases hsd : c.sheetData with
    | none =>
      cases hw : c.warLeagueName with
      | none => simp [leagueOf, leagueRef, jsStrOr, hsd, hw]
      | some n =>
        by_cases hn : n = "" <;>
          simp [leagueOf, leagueRef, jsStrOr, hsd, hw, hn]
    | some sd =>
      by_cases hl : sd.league = ""
      · cases hw : c.warLeagueName with
        | none => simp [leagueOf, leagueRef, jsStrOr, hsd, hw, hl]
        | some n =>
          by_cases hn : n = "" <;>
            simp [leagueOf, leagueRef, jsStrOr, hsd, hw, hl, hn]
      · simp [leagueOf, leagueRef, jsStrOr, hl, hsd]
  · intro clans c hc
    refine ⟨mem_dedupFirst (leagueOf c) [] (clans.map leagueOf)
      (List.mem_map_of_mem leagueOf hc) (List.not_mem_nil _),
      List.mem_filter.mpr ⟨hc, by simp⟩, ?_⟩
    intro k hk
    have := (List.mem_filter.mp hk).2
    simpa [eq_comm] using this

/-- C3 witness: a clan with a sheet league, a clan with only a live war
league, and a clan with neither, each landing on the reference key. -/
theorem claim_C3_witness :
    leagueOf { tag := "#X",
               warLeagueName := some "Crystal I",
               sheetData := some { league := "Master 2" } }
      = leagueRef { tag := "#X",
                    warLeagueName := some "Crystal I",
                    sheetData := some { league := "Master 2" } }
    ∧ leagueOf { tag := "#Y", warLeagueName := some "Crystal I" }
        = leagueRef { tag := "#Y", warLeagueName := some "Crystal I" }
    ∧ leagueOf { tag := "#Z" }
        ∈ dedupFirst [] ([{ tag := "#Z" } ].map leagueOf) :=
  ⟨claim_C3_league_partition.1
      { tag := "#X", warLeagueName := some "Crystal I",
        sheetData := some { league := "Master 2" } },
   claim_C3_league_partition.1
      { tag := "#Y", warLeagueName := some "Crystal I" },
   (claim_C3_league_partition.2 [{ tag := "#Z" }] { tag := "#Z" } (by simp)).1⟩

/-- C9: a non-empty merged input always produces a non-empty filtered
output, and the visibility walk always keeps the first clan of a league
group whatever its format is. -/
theorem claim_C9_nonempty_output :
    (∀ clans : List Clan, clans ≠ [] → filterClansByCapacity clans ≠ [])
    ∧ (∀ (c : Clan) (rest : List Clan),
        ∃ t, walkLeague none (c :: rest) = c :: t) := by
  constructor
  · intro clans hne
    obtain ⟨c0, cl', rfl⟩ : ∃ c0 cl', clans = c0 :: cl' := by
      cases clans with
      | nil => exact absurd rfl hne
      | cons a t => exact ⟨a, t, rfl⟩
    have hgrp : c0 ∈ (c0 :: cl').filter (fun c => leagueOf c = leagueOf c0) :=
      List.mem_filter.mpr ⟨List.mem_cons_self c0 cl', by simp⟩
    have hsortne :
        sortKey inUseKey ((c0 :: cl').filter (fun c => leagueOf c = leagueOf c0)) ≠ [] :=
      sortKey_ne_nil _ _ (List.ne_nil_of_mem hgrp)
    obtain ⟨a, t, hs⟩ : ∃ a t,
        sortKey inUseKey ((c0 :: cl').filter (fun c => leagueOf c = leagueOf c0))
          = a :: t := by
      cases hcase : sortKey inUseKey ((c0 :: cl').filter (fun c => leagueOf c = leagueOf c0)) with
      | nil => exact absurd hcase hsortne
      | cons a t => exact ⟨a, t, rfl⟩
    obtain ⟨w, hw⟩ := walkLeague_cons_none a t
    have hawalk : a ∈ walkLeague none
        (sortKey inUseKey ((c0 :: cl').filter (fun c => leagueOf c = leagueOf c0))) := by
      rw [hs, hw]
      exact List.mem_cons_self a w
    have hkey : leagueOf c0 ∈ dedupFirst [] ((c0 :: cl').map leagueOf) :=
      mem_dedupFirst (leagueOf c0) [] _
        (List.mem_map_of_mem leagueOf (List.mem_cons_self c0 cl')) (List.not_mem_nil _)
    have hvis : a ∈ visibleClansOf (c0 :: cl') :=
      mem_concatGroups (c0 :: cl') a _ (leagueOf c0) hkey hawalk
    exact List.ne_nil_of_mem ((mem_sortKey inUseKey a (visibleClansOf (c0 :: cl'))).mpr hvis)
  · exact walkLeague_cons_none

/-- C9 witness: a one-clan input gives a non-empty output. -/
theorem claim_C9_witness :
    filterClansByCapacity [{ tag := "#Only" }] ≠ [] :=
  claim_C9_nonempty_output.1 [{ tag := "#Only" }] (by simp)

/-- C10: a lazy gating clan whose sheet row is missing, whose members field
does not parse, or whose members field parses to 0 has quota 0,
is therefore always counted as full, and never hides the next lazy clan of
its league. -/
theorem claim_C10_zero_quota_never_gates :
    ∀ g : Clan,
      (g.sheetData = none
        ∨ ∃ sd, g.sheetData = some sd
            ∧ (jsParseInt sd.members.toList = none
               ∨ jsParseInt sd.members.toList = some 0)) →
      requiredOf g = 0
      ∧ clanIsFull g = true
      ∧ (∀ (c : Clan) (rest : List Clan), formatOf c = "lazy" →
          walkLeague (some g) (c :: rest) = c :: walkLeague (some c) rest) := by
  intro g hyp
  have hreq : requiredOf g = 0 := by
    rcases hyp with hnone | ⟨sd, hsd, hcase⟩
    · simp [requiredOf, requiredOfSheet, hnone]
    · rcases hcase with h | h <;>
        simp only [String.toList] at h <;>
        simp [requiredOf, requiredOfSheet, hsd, h]
  have hfull : clanIsFull g = true := by
    simp [clanIsFull, requiredOf] at hreq ⊢
    rw [hreq]
    exact Int.natCast_nonneg _
  refine ⟨hreq, hfull, ?_⟩
  intro c rest hc
  have hser : ¬ formatOf c = "serious" := by
    rw [hc]; decide
  simp [walkLeague, hser, hc, hfull]

/-- C10 witness: a lazy clan with an unparseable members field reveals the
next lazy clan. -/
theorem claim_C10_witness :
    requiredOf { tag := "#G",
                 sheetData := some { format := "lazy", members := "tbd" } } = 0
    ∧ clanIsFull { tag := "#G",
                   sheetData := some { format := "lazy", members := "tbd" } } = true :=
  ⟨(claim_C10_zero_quota_never_gates
      { tag := "#G", sheetData := some { format := "lazy", members := "tbd" } }
      (Or.inr ⟨{ format := "lazy", members := "tbd" }, rfl, Or.inl (by decide)⟩)).1,
   (claim_C10_zero_quota_never_gates
      { tag := "#G", sheetData := some { format := "lazy", members := "tbd" } }
      (Or.inr ⟨{ format := "lazy", members := "tbd" }, rfl, Or.inl (by decide)⟩)).2.1⟩

/-- C5 counterexample: the claim reads the sort key as the occupancyRank
itself whenever one is recorded, with 999 only for a missing rank; but the
source computes sheetData?.inUse || 999, for which the recorded rank 0 is
falsy, so a clan ranked 0 is sorted as 999 and the output is not ascending
in the claimed key. -/
theorem claim_C5_counterexample :
    ¬ (filterClansByCapacity
        [{ tag := "#A", sheetData := some { inUse := some 0, league := "L", format := "x" } },
         { tag := "#B", sheetData := some { inUse := some 5, league := "L", format := "x" } }]).Pairwise
      (fun a b => claimOccKey a ≤ claimOccKey b) := by
  intro h
  have heval : filterClansByCapacity
      [{ tag := "#A", sheetData := some { inUse := some 0, league := "L", format := "x" } },
       { tag := "#B", sheetData := some { inUse := some 5, league := "L", format := "x" } }]
      = [{ tag := "#B", sheetData := some { inUse := some 5, league := "L", format := "x" } },
         { tag := "#A", sheetData := some { inUse := some 0, league := "L", format := "x" } }] := by
    decide
  rw [heval] at h
  have hle := (List.pairwise_cons.mp h).1
      { tag := "#A", sheetData := some { inUse := some 0, league := "L", format := "x" } }
      (List.mem_cons_self _ _)
  simp [claimOccKey] at hle

/-- C5 as amended: the output of filterClansByCapacity is ascending in the
source sort key inUseKey, in which a missing sheet row, a missing
occupancyRank and the falsy occupancyRank 0 all fall back to 999; the sort
is stable with respect to the order produced by the per-league visibility
walk; and any clan without a recorded occupancyRank takes the key 999. -/
theorem claim_C5_sorted_stable_amended :
    ∀ clans : List Clan,
      (filterClansByCapacity clans).Pairwise (fun a b => inUseKey a ≤ inUseKey b)
      ∧ (∀ k : Int, (filterClansByCapacity clans).filter (fun c => inUseKey c = k)
            = (visibleClansOf clans).filter (fun c => inUseKey c = k))
      ∧ (∀ c : Clan,
          (c.sheetData = none
            ∨ ∃ sd, c.sheetData = some sd ∧ (sd.inUse = none ∨ sd.inUse = some 0)) →
          inUseKey c = 999) := by
  intro clans
  refine ⟨sortKey_pairwise inUseKey (visibleClansOf clans),
    fun k => sortKey_filter inUseKey k (visibleClansOf clans), ?_⟩
  intro c hc
  rcases hc with h | ⟨sd, hsd, hin⟩
  · simp [inUseKey, h]
  · rcases hin with h0 | h0 <;> simp [inUseKey, hsd, h0]

/-- C5 witness: a clan without a sheet row takes the fallback key 999, and
the empty input is sorted. -/
theorem claim_C5_witness :
    inUseKey { tag := "#W" } = 999 :=
  (claim_C5_sorted_stable_amended []).2.2 { tag := "#W" } (Or.inl rfl)

/-- C6: the aggregation fails on an empty roster fetch and on an empty
live fetch, with two distinct error messages, and a successful result is
only ever produced from non-empty roster and live sets. -/
theorem claim_C6_empty_inputs_fail :
    ∀ (detailsFromSheet : List SheetData) (fetchedClans : List Clan),
      (detailsFromSheet = [] →
        getCWLClansFiltered detailsFromSheet fetchedClans
          = Except.error "No CWL clans found in Google Sheets")
      ∧ (detailsFromSheet ≠ [] → fetchedClans = [] →
          getCWLClansFiltered detailsFromSheet fetchedClans
            = Except.error "No clan data could be fetched from CoC API")
      ∧ ("No CWL clans found in Google Sheets"
          ≠ "No clan data could be fetched from CoC API")
      ∧ (∀ l : List Clan,
          getCWLClansFiltered detailsFromSheet fetchedClans = Except.ok l →
          detailsFromSheet ≠ [] ∧ fetchedClans ≠ []) := by
  intro details fetched
  refine ⟨?_, ?_, by decide, ?_⟩
  · intro h
    simp [getCWLClansFiltered, h]
  · intro hne h
    have hlen : ¬ details.length = 0 := by
      simpa [List.length_eq_zero] using hne
    simp [getCWLClansFiltered, hlen, h]
  · intro l hok
    by_cases hd : details.length = 0
    · simp [getCWLClansFiltered, hd] at hok
    · by_cases hf : fetched.length = 0
      · simp [getCWLClansFiltered, hd, hf] at hok
      · constructor
        · simpa [List.length_eq_zero] using hd
        · simpa [List.length_eq_zero] using hf

/-- C6 witness: the empty roster fetch and the empty live fetch each fail
with their own message. -/
theorem claim_C6_witness :
    getCWLClansFiltered [] []
        = Except.error "No CWL clans found in Google Sheets"
    ∧ getCWLClansFiltered [{ tag := "#A" }] []
        = Except.error "No clan data could be fetched from CoC API" :=
  ⟨(claim_C6_empty_inputs_fail [] []).1 rfl,
   (claim_C6_empty_inputs_fail [{ tag := "#A" }] []).2.1 (by simp) rfl⟩

/-- C7: the batch clan fetch drops each failed individual fetch instead of
failing: for every fetch behaviour the result is exactly the list of
successfully fetched records of the valid requested tags, and when one of
five requested clans fails the result has four entries. -/
theorem claim_C7_fetch_failure_tolerated :
    (∀ (fetchOne : String → Option Clan) (clanTags : List String),
      getMultipleClans fetchOne clanTags
        = (clanTags.filter isValidTag).filterMap fetchOne)
    ∧ (getMultipleClans
         (fun t => if t = "#C" then none else some { tag := t })
         ["#A", "#B", "#C", "#D", "#E"]).length = 4 := by
  constructor
  · intro f tags
    simp only [getMultipleClans]
    by_cases h : (tags.filter isValidTag).length = 0
    · have hnil : tags.filter isValidTag = [] := List.eq_nil_of_length_eq_zero h
      simp [h, hnil]
    · rw [if_neg h, batchGo_eq_map f _ _ (le_refl _)]
      simp [List.filterMap_map]
  · decide

/-- C8: the eligible-members endpoint response is internally consistent:
isFull holds exactly when the eligible count reaches the quota, the
remaining-slot count is the clamped difference and never negative, the
eligible count is the one computed by calculateEligibleMembers on the posted
sheet data and the fetched member list, and the quota is the parsed members
field with 0 for an unparseable value. -/
theorem claim_C8_eligible_endpoint_shape :
    ∀ (clan : Clan) (sheetData : Option SheetData),
      ((getClanEligibleMembers clan sheetData).isFull = true
        ↔ ((getClanEligibleMembers clan sheetData).eligibleMembers : Int)
            ≥ (getClanEligibleMembers clan sheetData).requiredMembers)
      ∧ (getClanEligibleMembers clan sheetData).remainingSlots
          = max 0 ((getClanEligibleMembers clan sheetData).requiredMembers
                    - ((getClanEligibleMembers clan sheetData).eligibleMembers : Int))
      ∧ 0 ≤ (getClanEligibleMembers clan sheetData).remainingSlots
      ∧ (getClanEligibleMembers clan sheetData).eligibleMembers
          = calculateEligibleMembers sheetData (some clan.memberList)
      ∧ (getClanEligibleMembers clan sheetData).requiredMembers
          = requiredOfSheet sheetData := by
  intro clan sheetData
  refine ⟨?_, rfl, le_max_left 0 _, rfl, rfl⟩
  simp [getClanEligibleMembers]

/-- C4 witness: the refinement instantiated at a concrete exact-match rule. -/
theorem claim_C4_witness :
    calculateEligibleMembers
        (some { townHall := "Th15" })
        (some [{ townHallLevel := 15 }, { townHallLevel := 14 }])
      = eligibleRef "Th15" [{ townHallLevel := 15 }, { townHallLevel := 14 }] :=
  claim_C4_eligibility_piecewise.1 { townHall := "Th15" }
    [{ townHallLevel := 15 }, { townHallLevel := 14 }]

/-- C7 witness: the batch fetch instantiated at five tags of which one
fails. -/
theorem claim_C7_witness :
    getMultipleClans
        (fun t => if t = "#C" then none else some { tag := t })
        ["#A", "#B", "#C", "#D", "#E"]
      = (["#A", "#B", "#C", "#D", "#E"].filter isValidTag).filterMap
          (fun t => if t = "#C" then none else some { tag := t }) :=
  claim_C7_fetch_failure_tolerated.1
    (fun t => if t = "#C" then none else some { tag := t })
    ["#A", "#B", "#C", "#D", "#E"]

/-- C8 witness: the endpoint shape instantiated at a clan of two members
against a quota of three. -/
theorem claim_C8_witness :
    0 ≤ (getClanEligibleMembers
          { tag := "#E", name := "Eagle",
            memberList := [{ townHallLevel := 15 }, { townHallLevel := 15 }] }
          (some { members := "3", townHall := "TH15" })).remainingSlots :=
  (claim_C8_eligible_endpoint_shape
    { tag := "#E", name := "Eagle",
      memberList := [{ townHallLevel := 15 }, { townHallLevel := 15 }] }
    (some { members := "3", townHall := "TH15" })).2.2.1

end Trinity

